import Mathlib

/-!
Verification of the diary-entry task-extraction pipeline (`processEntries` and its
helpers from `src/template/src/lib/openai.ts` and the sample-function module).

The shallow embedding below translates the TypeScript source:
strings are Lean `String`s (ASCII assumed, as in the fixture data), the
`Date` arithmetic of `new Date` / `setDate` / `toISOString` is modelled by a
civil-calendar `Date` structure under a UTC clock, the current wall-clock time
is passed explicitly as a `now : Date` parameter (the source reads it via
`new Date()` when `created_at` is empty), fallible operations return `Except`,
and the embedding provider is an injected function, as the specification
describes it.  Numeric embedding vectors are idealised as real-number lists;
`cosineSimilarity` is therefore noncomputable, but no claim depends on the
numeric value of a similarity score.
-/

/-- ASCII lower-casing of one character, modelling `String.prototype.toLowerCase`
on the ASCII range used by the fixtures. -/
def lowerChar (c : Char) : Char :=
  if 'A' ≤ c ∧ c ≤ 'Z' then Char.ofNat (c.toNat + 32) else c

/-- Models `s.toLowerCase()`. -/
def lowerStr (s : String) : String :=
  String.mk (s.data.map lowerChar)

/-- JavaScript regex word character class `\w`. -/
def wordChar (c : Char) : Bool :=
  c.isAlphanum || c == '_'

/-- Does `pat` occur at the start of `s`?  Helper for the substring test. -/
def startsWithL : List Char → List Char → Bool
  | [], _ => true
  | _ :: _, [] => false
  | p :: ps, c :: cs => p == c && startsWithL ps cs

/-- Does `pat` occur anywhere in `s`?  Helper for `occursIn`. -/
def hasSubL (pat : List Char) : List Char → Bool
  | [] => startsWithL pat []
  | c :: rest => startsWithL pat (c :: rest) || hasSubL pat rest

/-- Models `s.includes(pat)`. -/
def occursIn (pat s : String) : Bool :=
  hasSubL pat.data s.data

/-- Models the truthiness of `s.trim()`: true iff some character is not whitespace. -/
def trimNonempty (s : String) : Bool :=
  s.data.any fun c => !c.isWhitespace

/-- Models `s.split(' ')[0]`: the segment of `s` before the first space. -/
def splitSpaceHead (s : String) : String :=
  String.mk (s.data.takeWhile fun c => c != ' ')

/-- The decimal digit character for `n % 10`. -/
def digitChar (n : Nat) : Char :=
  Char.ofNat (48 + n % 10)

/-- Civil calendar date (UTC), the date component of a JavaScript `Date`. -/
structure Date where
  year : Nat
  month : Nat
  day : Nat
deriving DecidableEq, Repr

/-- Gregorian leap-year rule. -/
def isLeap (y : Nat) : Bool :=
  (y % 4 == 0 && y % 100 != 0) || y % 400 == 0

/-- Number of days in month `m` of year `y`. -/
def daysInMonth (y m : Nat) : Nat :=
  if m == 2 then (if isLeap y then 29 else 28)
  else if m == 4 || m == 6 || m == 9 || m == 11 then 30
  else 31

/-- The day after `d` (models `setDate(getDate() + 1)` under UTC). -/
def nextDay (d : Date) : Date :=
  if d.day < daysInMonth d.year d.month then ⟨d.year, d.month, d.day + 1⟩
  else if d.month < 12 then ⟨d.year, d.month + 1, 1⟩
  else ⟨d.year + 1, 1, 1⟩

/-- The day before `d` (models `setDate(getDate() - 1)` under UTC). -/
def prevDay (d : Date) : Date :=
  if 1 < d.day then ⟨d.year, d.month, d.day - 1⟩
  else if 1 < d.month then ⟨d.year, d.month - 1, daysInMonth d.year (d.month - 1)⟩
  else ⟨d.year - 1, 12, 31⟩

/-- `n` days after `d`. -/
def addDays (d : Date) : Nat → Date
  | 0 => d
  | n + 1 => nextDay (addDays d n)

/-- Numeric value of a digit character. -/
def digitVal (c : Char) : Nat :=
  c.toNat - 48

/-- Is the remainder after the date part a legal continuation of an ISO
timestamp (end of string, `T` separator, or space separator)? -/
def timeSepOk : List Char → Bool
  | [] => true
  | c :: _ => c == 'T' || c == ' '

/-- Models the date component of `new Date(s)` for ISO-8601-shaped timestamps
under UTC; `none` models an `Invalid Date`.  The time-of-day portion after the
separator is assumed well formed and is ignored (idealisation: the fixtures
only carry well-formed timestamps or strings that are not date-shaped at all). -/
def parseDate (s : String) : Option Date :=
  match s.data with
  | y1 :: y2 :: y3 :: y4 :: '-' :: m1 :: m2 :: '-' :: d1 :: d2 :: rest =>
    if y1.isDigit && y2.isDigit && y3.isDigit && y4.isDigit && m1.isDigit && m2.isDigit
        && d1.isDigit && d2.isDigit && timeSepOk rest then
      let y := digitVal y1 * 1000 + digitVal y2 * 100 + digitVal y3 * 10 + digitVal y4
      let m := digitVal m1 * 10 + digitVal m2
      let d := digitVal d1 * 10 + digitVal d2
      if 1 ≤ m && m ≤ 12 && 1 ≤ d && d ≤ daysInMonth y m then some ⟨y, m, d⟩ else none
    else none
  | _ => none

/-- Models `created.toISOString().split('T')[0]`: the `YYYY-MM-DD` rendering of
a date.  (Years are rendered with four digits; the expanded-year ISO format that
JavaScript uses beyond the year 9999 is outside the model.) -/
def formatDate (d : Date) : String :=
  String.mk [digitChar (d.year / 1000), digitChar (d.year / 100), digitChar (d.year / 10),
    digitChar d.year, '-', digitChar (d.month / 10), digitChar d.month, '-',
    digitChar (d.day / 10), digitChar d.day]

/-- Does `s` match the pattern `YYYY-MM-DD` (four digits, dash, two digits,
dash, two digits, and nothing else)? -/
def isYMD (s : String) : Bool :=
  match s.data with
  | [a, b, c, d, e, f, g, h, i, j] =>
    a.isDigit && b.isDigit && c.isDigit && d.isDigit && e == '-' && f.isDigit && g.isDigit
      && h == '-' && i.isDigit && j.isDigit
  | _ => false

/-- The alternatives of the `taskVerbs` regex, in source order.  Each is a
literal matched between `\b` word boundaries. -/
def taskVerbList : List String :=
  ["plan", "planning", "planned", "need", "needs", "needing", "want", "wants", "wanting",
   "schedule", "scheduling", "scheduled", "going to", "tomorrow", "today", "yesterday",
   "this week", "next week", "start", "starting", "started", "finish", "finishing",
   "finished", "call", "calling", "called", "buy", "buying", "bought", "reply", "replying",
   "replied", "send", "sending", "sent", "clean", "cleaning", "cleaned", "organize",
   "organizing", "organized", "submit", "submitting", "submitted", "book", "booking",
   "booked"]

/-- Strip a literal pattern from the head of a character list, returning the
remainder on success. -/
def stripLit : List Char → List Char → Option (List Char)
  | [], s => some s
  | _ :: _, [] => none
  | p :: ps, c :: cs => if p == c then stripLit ps cs else none

/-- The trailing `\b` word boundary: satisfied at end of input or before a
non-word character (every lexicon alternative ends in a word character). -/
def tailBoundary : List Char → Bool
  | [] => true
  | c :: _ => !wordChar c

/-- The leading `\b` word boundary, given the character preceding the current
position (every lexicon alternative starts with a word character). -/
def boundaryOk : Option Char → Bool
  | none => true
  | some c => !wordChar c

/-- Does some `taskVerbs` alternative match at the current position? -/
def verbAt (s : List Char) : Bool :=
  taskVerbList.any fun w =>
    match stripLit w.data s with
    | some rest => tailBoundary rest
    | none => false

/-- Left-to-right scan for a `taskVerbs` match, carrying the previous character
for the leading word boundary. -/
def scanVerbs : Option Char → List Char → Bool
  | _, [] => false
  | prev, c :: cs => (boundaryOk prev && verbAt (c :: cs)) || scanVerbs (some c) cs

/-- Models `taskVerbs.test(transcript)` (the transcript is already lower-cased,
so the `i` flag is immaterial). -/
def testTaskVerbs (s : String) : Bool :=
  scanVerbs none s.data

/-- One alternative of the `timePhrases` regex: either a literal, or a literal
head followed by `\w+` (the `by \w+` family). -/
inductive TimeAlt where
  | lit : String → TimeAlt
  | wordAfter : String → TimeAlt
deriving DecidableEq, Repr

/-- The alternatives of `timePhrases`, in source order. -/
def timeAlts : List TimeAlt :=
  [TimeAlt.lit "tomorrow", TimeAlt.lit "today", TimeAlt.lit "yesterday",
   TimeAlt.lit "this week", TimeAlt.lit "next week", TimeAlt.wordAfter "by ",
   TimeAlt.wordAfter "sometime ", TimeAlt.wordAfter "later ", TimeAlt.wordAfter "before "]

/-- Try one `timePhrases` alternative at the current position, returning the
matched text.  `\w+` is greedy, so its trailing word boundary always holds. -/
def tryAltAt (s : List Char) : TimeAlt → Option String
  | TimeAlt.lit w =>
    match stripLit w.data s with
    | some rest => if tailBoundary rest then some w else none
    | none => none
  | TimeAlt.wordAfter h =>
    match stripLit h.data s with
    | some rest =>
      let run := rest.takeWhile wordChar
      if run.isEmpty then none else some (String.mk (h.data ++ run))
    | none => none

/-- Left-to-right scan for the first `timePhrases` match; at each position the
alternatives are tried in source order, as the JavaScript engine does. -/
def scanTime : Option Char → List Char → Option String
  | _, [] => none
  | prev, c :: cs =>
    match (if boundaryOk prev then timeAlts.findSome? (tryAltAt (c :: cs)) else none) with
    | some m => some m
    | none => scanTime (some c) cs

/-- Models `transcript.match(timePhrases)`, returning `m[0]` of the first match. -/
def findTimeMatch (s : String) : Option String :=
  scanTime none s.data

/-- Error outcomes of one invocation: a `RangeError` from `toISOString` on an
invalid date, or a rejection from the embedding provider. -/
inductive ProcErr where
  | invalidDate : ProcErr
  | providerDown : ProcErr
deriving DecidableEq, Repr

/-- The fields of a `VoiceEntry` that `processEntries` reads. -/
structure VoiceEntry where
  id : String
  transcript_user : String
  tags_user : List String
  created_at : String
  embedding : Option (List ℝ)

/-- One extracted task, as pushed onto the `tasks` array. -/
structure ExtractedTask where
  task_text : String
  due_date : Option String
  status : String
  category : String
  score : Option ℝ

/-- The `ProcessedResult` shape.  `tagFrequencies` is an association list in
insertion order, as JavaScript object keys are. -/
structure ProcessedResult where
  summary : String
  tagFrequencies : List (String × Nat)
  tasks : List ExtractedTask

/-- The tag filter `tag && tag.trim() && !tag.includes('"')`. -/
def tagOk (tag : String) : Bool :=
  trimNonempty tag && !(tag.data.contains '"')

/-- `tagFrequencies[tag] = (tagFrequencies[tag] || 0) + 1` on an insertion-order
association list. -/
def bumpTag (m : List (String × Nat)) (tag : String) : List (String × Nat) :=
  if m.any (fun p => p.1 == tag) then
    m.map fun p => if p.1 == tag then (p.1, p.2 + 1) else p
  else m ++ [(tag, 1)]

/-- The tag-counting loop over all entries. -/
def countTags (entries : List VoiceEntry) : List (String × Nat) :=
  entries.foldl
    (fun m e => e.tags_user.foldl (fun m2 tag => if tagOk tag then bumpTag m2 tag else m2) m)
    []

/-- The category keyword table, in source order. -/
def categories : List (String × List String) :=
  [("Work", ["job", "work", "proposal", "report", "meeting", "interview", "resume", "email",
     "slides", "application"]),
   ("Personal", ["mom", "grandpa", "aunt", "friends", "call", "coffee", "family",
     "grandmother", "catch up"]),
   ("Health", ["health", "caffeine", "sugar", "run", "workout", "dentist", "doctor",
     "no-sugar"]),
   ("Home", ["clean", "organize", "declutter", "kitchen", "bathroom", "garage", "paint",
     "room", "closet"]),
   ("Other", [])]

/-- The category-assignment loop: first table row with a substring hit wins,
default `Other`. -/
def classify (transcript : String) : String :=
  match categories.find? (fun p => p.2.any fun k => occursIn k transcript) with
  | some p => p.1
  | none => "Other"

/-- Cosine similarity as in the source: 0 for mismatched lengths, empty or
zero-norm vectors, else dot product over the product of Euclidean norms. -/
noncomputable def cosineSimilarity (a b : List ℝ) : ℝ :=
  if a.length ≠ b.length ∨ a.length = 0 then 0
  else
    let dotProduct := (a.zip b).foldl (fun s p => s + p.1 * p.2) 0
    let normA := Real.sqrt (a.foldl (fun s v => s + v * v) 0)
    let normB := Real.sqrt (b.foldl (fun s v => s + v * v) 0)
    if normB = 0 ∨ normA = 0 then 0 else dotProduct / (normA * normB)

/-- The due-date extraction block (lines 105-122 of the source).  `transcript`
is the lower-cased user transcript; `now` models `new Date()`, consulted only
when `created_at` is the empty string.  `Except.error` models the `RangeError`
that `toISOString` throws on an invalid date. -/
def resolveDue (now : Date) (e : VoiceEntry) (transcript : String) : Except ProcErr (Option String) :=
  match findTimeMatch transcript with
  | none => Except.ok none
  | some phrase =>
    let created : Option Date := if e.created_at = "" then some now else parseDate e.created_at
    if occursIn "tomorrow" phrase then
      match created with
      | some d => Except.ok (some (formatDate (addDays d 1)))
      | none => Except.error ProcErr.invalidDate
    else if occursIn "today" phrase then
      Except.ok (some (splitSpaceHead e.created_at))
    else if occursIn "yesterday" phrase then
      match created with
      | some d => Except.ok (some (formatDate (prevDay d)))
      | none => Except.error ProcErr.invalidDate
    else if occursIn "this week" phrase || occursIn "next week" phrase then
      match created with
      | some d =>
        Except.ok (some (formatDate (addDays d (if occursIn "next" phrase then 7 else 0))))
      | none => Except.error ProcErr.invalidDate
    else Except.ok (some phrase)

/-- The per-entry body of the extraction loop: intent detection, due-date
resolution, category assignment, and conditional scoring. -/
noncomputable def extractTask (qe : Option (List ℝ)) (now : Date) (e : VoiceEntry) :
    Except ProcErr (Option ExtractedTask) :=
  let transcript := lowerStr e.transcript_user
  if transcript ≠ "" ∧ testTaskVerbs transcript = true then
    match resolveDue now e transcript with
    | Except.error err => Except.error err
    | Except.ok due =>
      Except.ok (some
        { task_text := e.transcript_user
          due_date := due
          status := "pending"
          category := classify transcript
          score :=
            match qe, e.embedding with
            | some q, some emb => some (cosineSimilarity q emb)
            | _, _ => none })
  else Except.ok none

/-- The extraction loop over all entries, stopping at the first error as the
thrown exception does. -/
noncomputable def collectTasks (qe : Option (List ℝ)) (now : Date) :
    List VoiceEntry → Except ProcErr (List ExtractedTask)
  | [] => Except.ok []
  | e :: rest =>
    match extractTask qe now e with
    | Except.error err => Except.error err
    | Except.ok ot =>
      match collectTasks qe now rest with
      | Except.error err => Except.error err
      | Except.ok ts =>
        Except.ok
          (match ot with
           | some t => t :: ts
           | none => ts)

/-- The guard `query && query.trim()` used both for the embedding call and for
the sort. -/
def queryActive (query : Option String) : Bool :=
  match query with
  | some s => s != "" && trimNonempty s
  | none => false

/-- Computing the query embedding when the query is active (lines 64-68). -/
def queryEmb (f : String → Except ProcErr (List ℝ)) (query : Option String) :
    Except ProcErr (Option (List ℝ)) :=
  match query with
  | some s =>
    if queryActive (some s) then
      match f s with
      | Except.ok v => Except.ok (some v)
      | Except.error err => Except.error err
    else Except.ok none
  | none => Except.ok none

/-- The effective score used by the sort comparator: `score || 0`. -/
noncomputable def effScore (t : ExtractedTask) : ℝ :=
  t.score.getD 0

/-- The sort order `(a, b) => (b.score || 0) - (a.score || 0)`: `a` may precede
`b` when its effective score is at least `b`'s. -/
def taskGE (a b : ExtractedTask) : Prop :=
  effScore b ≤ effScore a

noncomputable instance : DecidableRel taskGE :=
  fun a b => inferInstanceAs (Decidable (effScore b ≤ effScore a))

instance : IsTotal ExtractedTask taskGE :=
  ⟨fun a b => le_total (effScore b) (effScore a)⟩

instance : IsTrans ExtractedTask taskGE :=
  ⟨fun _ _ _ h1 h2 => le_trans h2 h1⟩

/-- The summary string of the result (line 153), including the verbatim
`for query "..."` suffix appended whenever the query string is truthy. -/
def mkSummary (n m : Nat) (query : Option String) : String :=
  "Analysed " ++ toString n ++ " entries, extracted " ++ toString m ++ " tasks" ++
    (match query with
     | some s => if s != "" then " for query \"" ++ s ++ "\"" else ""
     | none => "")

/-- The whole `processEntries` pipeline: query embedding, tag counting, task
extraction, conditional stable sort by descending score, result assembly.
JavaScript `Array.prototype.sort` is stable, and a stable sort with respect to
the comparator's total preorder is extensionally insertion sort. -/
noncomputable def processEntries (f : String → Except ProcErr (List ℝ)) (now : Date)
    (entries : List VoiceEntry) (query : Option String) : Except ProcErr ProcessedResult :=
  match queryEmb f query with
  | Except.error err => Except.error err
  | Except.ok qe =>
    match collectTasks qe now entries with
    | Except.error err => Except.error err
    | Except.ok ts =>
      let finalTasks := if queryActive query then List.insertionSort taskGE ts else ts
      Except.ok
        { summary := mkSummary entries.length finalTasks.length query
          tagFrequencies := countTags entries
          tasks := finalTasks }

instance instDecEqExcept {ε α : Type} [DecidableEq ε] [DecidableEq α] :
    DecidableEq (Except ε α) := fun x y =>
  match x, y with
  | Except.ok a, Except.ok b =>
    if h : a = b then Decidable.isTrue (by rw [h]) else Decidable.isFalse (by simp [h])
  | Except.ok _, Except.error _ => Decidable.isFalse (by simp)
  | Except.error _, Except.ok _ => Decidable.isFalse (by simp)
  | Except.error a, Except.error b =>
    if h : a = b then Decidable.isTrue (by rw [h]) else Decidable.isFalse (by simp [h])

/-- A deterministic always-succeeding embedding provider stub. -/
def stubF : String → Except ProcErr (List ℝ) :=
  fun _ => Except.ok []

/-- An embedding provider whose call fails. -/
def failF : String → Except ProcErr (List ℝ) :=
  fun _ => Except.error ProcErr.providerDown

/-- A concrete clock value. -/
def now0 : Date := ⟨2025, 6, 17⟩

/-- A later concrete clock value. -/
def now1 : Date := ⟨2025, 6, 20⟩

/-- Record whose transcript carries an unresolved `by X` phrase. -/
def eByFriday : VoiceEntry :=
  ⟨"1", "Submit the report by friday", [], "2025-06-17T00:00:00Z", none⟩

/-- Record with a task verb, no time phrase, and no embedding. -/
def eNoEmb : VoiceEntry :=
  ⟨"2", "Need to buy milk", [], "2025-06-17T00:00:00Z", none⟩

/-- Record matching `today` whose timestamp uses the `T` separator. -/
def eTodayT : VoiceEntry :=
  ⟨"3", "Finish the slides today", [], "2025-06-17T08:00:00Z", none⟩

/-- Record matching `today` whose timestamp uses a space separator. -/
def eTodaySpace : VoiceEntry :=
  ⟨"4", "Finish the slides today", [], "2025-06-17 08:00:00", none⟩

/-- Record whose transcript carries `by tomorrow`. -/
def eByTomorrow : VoiceEntry :=
  ⟨"5", "Submit the report by tomorrow", [], "2025-06-17T00:00:00Z", none⟩

/-- The spec's `Email Sarah` scenario record. -/
def eSarah : VoiceEntry :=
  ⟨"6", "Email Sarah about the project", [], "2025-06-17T00:00:00Z", none⟩

/-- The `Email Sarah` record with a lexicon verb added. -/
def eNeedSarah : VoiceEntry :=
  ⟨"7", "Need to email Sarah about the project", [], "2025-06-17T00:00:00Z", none⟩

/-- A qualifying record with no time phrase. -/
def eCallMom : VoiceEntry :=
  ⟨"8", "Call mom", [], "2025-06-17T00:00:00Z", none⟩

/-- A record with an empty creation timestamp and a `tomorrow` phrase. -/
def eEmptyCreated : VoiceEntry :=
  ⟨"9", "Call mom tomorrow", [], "", none⟩

/-- A record with a well-formed creation timestamp and a `tomorrow` phrase. -/
def eTomorrowOk : VoiceEntry :=
  ⟨"10", "Call mom tomorrow", [], "2025-06-17T00:00:00Z", none⟩

/-- A record whose transcript is a bare time word. -/
def eBareTomorrow : VoiceEntry :=
  ⟨"11", "Tomorrow", [], "2025-06-17T00:00:00Z", none⟩

/-- The task extracted from `eTomorrowOk`. -/
def taskTomorrowOk : ExtractedTask :=
  { task_text := "Call mom tomorrow", due_date := some "2025-06-18", status := "pending",
    category := "Personal", score := none }

/-- The result of processing `[eTomorrowOk]` with no query. -/
def resTomorrowOk : ProcessedResult :=
  { summary := "Analysed 1 entries, extracted 1 tasks", tagFrequencies := [],
    tasks := [taskTomorrowOk] }

/-- A qualifying record that carries an embedding vector. -/
def eCallMomEmb : VoiceEntry :=
  ⟨"12", "Call mom", [], "2025-06-17T00:00:00Z", some [1]⟩

/-- The task extracted from `eCallMomEmb` under the query embedding `[]`:
its score is present. -/
noncomputable def taskCallMomEmb : ExtractedTask :=
  { task_text := "Call mom", due_date := none, status := "pending",
    category := "Personal", score := some (cosineSimilarity [] [1]) }

/-- The result of processing `[eCallMomEmb]` with the query `"x"` under `stubF`. -/
noncomputable def resCallMomEmb : ProcessedResult :=
  { summary := "Analysed 1 entries, extracted 1 tasks for query \"x\"", tagFrequencies := [],
    tasks := [taskCallMomEmb] }

/-- The task extracted from `eCallMom`. -/
def taskCallMom : ExtractedTask :=
  { task_text := "Call mom", due_date := none, status := "pending",
    category := "Personal", score := none }

/-- The result of processing `[eCallMom]` with the query `"x"` under `stubF`. -/
def resCallMomQuery : ProcessedResult :=
  { summary := "Analysed 1 entries, extracted 1 tasks for query \"x\"", tagFrequencies := [],
    tasks := [taskCallMom] }

/-- Every character produced by `digitChar` is a decimal digit. -/
theorem digitChar_isDigit (n : Nat) : (digitChar n).isDigit = true := by
  have h : n % 10 < 10 := Nat.mod_lt _ (by omega)
  unfold digitChar
  set k := n % 10 with hk
  interval_cases k <;> decide

/-- Formatted dates always have the `YYYY-MM-DD` shape (years are rendered with
four digits in the model, see `formatDate`). -/
theorem isYMD_formatDate (d : Date) : isYMD (formatDate d) = true := by
  show ((digitChar (d.year / 1000)).isDigit && (digitChar (d.year / 100)).isDigit &&
      (digitChar (d.year / 10)).isDigit && (digitChar d.year).isDigit && ('-' == '-') &&
      (digitChar (d.month / 10)).isDigit && (digitChar d.month).isDigit && ('-' == '-') &&
      (digitChar (d.day / 10)).isDigit && (digitChar d.day).isDigit) = true
  simp [digitChar_isDigit]

/-- When the query embedding step succeeds, the resulting optional vector is
present exactly when the query guard `query && query.trim()` is truthy. -/
theorem queryEmb_ok_isSome {f : String → Except ProcErr (List ℝ)} {query : Option String}
    {qe : Option (List ℝ)} (h : queryEmb f query = Except.ok qe) :
    qe.isSome = queryActive query := by
  cases query with
  | none =>
    simp only [queryEmb] at h
    cases h
    rfl
  | some s =>
    simp only [queryEmb] at h
    by_cases hq : queryActive (some s) = true
    · rw [if_pos hq] at h
      cases hf : f s with
      | ok v => rw [hf] at h; cases h; simpa using hq.symm
      | error err => rw [hf] at h; cases h
    · rw [if_neg hq] at h
      cases h
      rw [Bool.not_eq_true] at hq
      simp [hq]

/-- Successful invocations decompose into a successful query-embedding step and
a successful extraction pass, with the result assembled from them. -/
theorem processEntries_ok {f : String → Except ProcErr (List ℝ)} {now : Date}
    {entries : List VoiceEntry} {query : Option String} {r : ProcessedResult}
    (h : processEntries f now entries query = Except.ok r) :
    ∃ qe ts, queryEmb f query = Except.ok qe ∧ collectTasks qe now entries = Except.ok ts ∧
      r = { summary := mkSummary entries.length
              (if queryActive query then List.insertionSort taskGE ts else ts).length query
            tagFrequencies := countTags entries
            tasks := if queryActive query then List.insertionSort taskGE ts else ts } := by
  unfold processEntries at h
  cases hq : queryEmb f query with
  | error err => rw [hq] at h; exact absurd h (by simp)
  | ok qe =>
    rw [hq] at h
    dsimp only at h
    cases hc : collectTasks qe now entries with
    | error err => rw [hc] at h; exact absurd h (by simp)
    | ok ts =>
      rw [hc] at h
      dsimp only at h
      cases h
      exact ⟨qe, ts, rfl, hc, rfl⟩

/-- Every task in a successful extraction pass comes from some input entry. -/
theorem collectTasks_mem {qe : Option (List ℝ)} {now : Date} {entries : List VoiceEntry}
    {ts : List ExtractedTask} (h : collectTasks qe now entries = Except.ok ts) :
    ∀ t ∈ ts, ∃ e ∈ entries, extractTask qe now e = Except.ok (some t) := by
  induction entries generalizing ts with
  | nil =>
    unfold collectTasks at h
    cases h
    intro t ht
    cases ht
  | cons e rest ih =>
    unfold collectTasks at h
    cases hx : extractTask qe now e with
    | error err => rw [hx] at h; cases h
    | ok ot =>
      rw [hx] at h
      cases hc : collectTasks qe now rest with
      | error err => rw [hc] at h; cases h
      | ok ts2 =>
        rw [hc] at h
        cases h
        intro t ht
        cases ot with
        | some t0 =>
          rcases List.mem_cons.mp ht with rfl | hmem
          · exact ⟨e, List.mem_cons_self e rest, hx⟩
          · obtain ⟨e2, he2, hx2⟩ := ih hc t hmem
            exact ⟨e2, List.mem_cons_of_mem e he2, hx2⟩
        | none =>
          obtain ⟨e2, he2, hx2⟩ := ih hc t ht
          exact ⟨e2, List.mem_cons_of_mem e he2, hx2⟩

/-- Every input entry whose extraction yields a task contributes that task to
a successful extraction pass. -/
theorem collectTasks_complete {qe : Option (List ℝ)} {now : Date} {entries : List VoiceEntry}
    {ts : List ExtractedTask} (h : collectTasks qe now entries = Except.ok ts) :
    ∀ e ∈ entries, ∀ t, extractTask qe now e = Except.ok (some t) → t ∈ ts := by
  induction entries generalizing ts with
  | nil =>
    intro e he
    cases he
  | cons e0 rest ih =>
    unfold collectTasks at h
    cases hx : extractTask qe now e0 with
    | error err => rw [hx] at h; cases h
    | ok ot =>
      rw [hx] at h
      cases hc : collectTasks qe now rest with
      | error err => rw [hc] at h; cases h
      | ok ts2 =>
        rw [hc] at h
        cases h
        intro e he t hxt
        rcases List.mem_cons.mp he with rfl | hmem
        · rw [hx] at hxt
          injection hxt with h2
          subst h2
          exact List.mem_cons_self t ts2
        · have hin := ih hc e hmem t hxt
          cases ot with
          | some t0 => exact List.mem_cons_of_mem t0 hin
          | none => exact hin

/-- Characterisation of a successful per-entry extraction that yields a task:
the score field reflects the presence of both vectors, and the due-date field
is exactly what the due-date block resolved. -/
theorem extractTask_ok_some {qe : Option (List ℝ)} {now : Date} {e : VoiceEntry}
    {t : ExtractedTask} (h : extractTask qe now e = Except.ok (some t)) :
    t.score.isSome = (qe.isSome && e.embedding.isSome) ∧
      resolveDue now e (lowerStr e.transcript_user) = Except.ok t.due_date := by
  unfold extractTask at h
  by_cases hc : lowerStr e.transcript_user ≠ "" ∧ testTaskVerbs (lowerStr e.transcript_user) = true
  · rw [if_pos hc] at h
    cases hr : resolveDue now e (lowerStr e.transcript_user) with
    | error err => rw [hr] at h; cases h
    | ok due =>
      rw [hr] at h
      injection h with h2
      injection h2 with h3
      subst h3
      refine ⟨?_, rfl⟩
      cases qe <;> cases he : e.embedding <;> simp [he]
  · rw [if_neg hc] at h
    cases h

/-- Everything the due-date block can successfully produce: nothing, a
formatted calendar date, the pre-space segment of the entry's `created_at`
(the `today` branch), or the raw matched time phrase. -/
theorem resolveDue_shape {now : Date} {e : VoiceEntry} {tr : String} {due : Option String}
    (h : resolveDue now e tr = Except.ok due) :
    due = none ∨ (∃ d0, due = some (formatDate d0)) ∨
      due = some (splitSpaceHead e.created_at) ∨
      (∃ m, findTimeMatch tr = some m ∧ due = some m) := by
  unfold resolveDue at h
  cases hm : findTimeMatch tr with
  | none =>
    rw [hm] at h
    cases h
    exact Or.inl rfl
  | some phrase =>
    rw [hm] at h
    dsimp only at h
    by_cases h1 : occursIn "tomorrow" phrase = true
    · rw [if_pos h1] at h
      cases hcr : (if e.created_at = "" then some now else parseDate e.created_at) with
      | some d => rw [hcr] at h; cases h; exact Or.inr (Or.inl ⟨addDays d 1, rfl⟩)
      | none => rw [hcr] at h; cases h
    · rw [if_neg h1] at h
      by_cases h2 : occursIn "today" phrase = true
      · rw [if_pos h2] at h
        cases h
        exact Or.inr (Or.inr (Or.inl rfl))
      · rw [if_neg h2] at h
        by_cases h3 : occursIn "yesterday" phrase = true
        · rw [if_pos h3] at h
          cases hcr : (if e.created_at = "" then some now else parseDate e.created_at) with
          | some d => rw [hcr] at h; cases h; exact Or.inr (Or.inl ⟨prevDay d, rfl⟩)
          | none => rw [hcr] at h; cases h
        · rw [if_neg h3] at h
          by_cases h4 : (occursIn "this week" phrase || occursIn "next week" phrase) = true
          · rw [if_pos h4] at h
            cases hcr : (if e.created_at = "" then some now else parseDate e.created_at) with
            | some d =>
              rw [hcr] at h
              cases h
              exact Or.inr (Or.inl ⟨addDays d (if occursIn "next" phrase then 7 else 0), rfl⟩)
            | none => rw [hcr] at h; cases h
          · rw [if_neg h4] at h
            cases h
            exact Or.inr (Or.inr (Or.inr ⟨phrase, rfl, rfl⟩))

/-- The due-date block never consults the clock when the entry's creation
timestamp is a non-empty string. -/
theorem resolveDue_now_indep {now now2 : Date} {e : VoiceEntry} {tr : String}
    (hne : e.created_at ≠ "") :
    resolveDue now e tr = resolveDue now2 e tr := by
  unfold resolveDue
  rw [if_neg hne, if_neg hne]

/-- Per-entry extraction never consults the clock when the entry's creation
timestamp is a non-empty string. -/
theorem extractTask_now_indep {qe : Option (List ℝ)} {now now2 : Date} {e : VoiceEntry}
    (hne : e.created_at ≠ "") :
    extractTask qe now e = extractTask qe now2 e := by
  unfold extractTask
  dsimp only
  rw [@resolveDue_now_indep now now2 e (lowerStr e.transcript_user) hne]

/-- The extraction pass never consults the clock when every entry's creation
timestamp is a non-empty string. -/
theorem collectTasks_now_indep {qe : Option (List ℝ)} {now now2 : Date}
    {entries : List VoiceEntry} (hne : ∀ e ∈ entries, e.created_at ≠ "") :
    collectTasks qe now entries = collectTasks qe now2 entries := by
  induction entries with
  | nil => rfl
  | cons e rest ih =>
    unfold collectTasks
    rw [@extractTask_now_indep qe now now2 e (hne e (List.mem_cons_self e rest)),
      ih fun e2 he2 => hne e2 (List.mem_cons_of_mem e he2)]

/-- The summary with a truthy query is the query-free summary plus the verbatim
`for query "..."` suffix. -/
theorem mkSummary_some (n m : Nat) {s : String} (hne : s ≠ "") :
    mkSummary n m (some s) = mkSummary n m none ++ " for query \"" ++ s ++ "\"" := by
  unfold mkSummary
  dsimp only
  rw [if_pos (by simpa using hne)]
  apply String.ext
  simp [String.data_append]

/-- C1 (amended): every due date a successful invocation produces is absent, a
`YYYY-MM-DD` calendar date, the pre-space segment of some input record's
`created_at` (the `today` branch), or the raw matched time phrase of some input
record's transcript. -/
theorem c1_due_date_shape {f : String → Except ProcErr (List ℝ)} {now : Date}
    {entries : List VoiceEntry} {query : Option String} {r : ProcessedResult}
    (hok : processEntries f now entries query = Except.ok r) :
    ∀ t ∈ r.tasks, t.due_date = none ∨ (∃ s, t.due_date = some s ∧ isYMD s = true) ∨
      (∃ e ∈ entries, t.due_date = some (splitSpaceHead e.created_at)) ∨
      (∃ e ∈ entries, ∃ m, findTimeMatch (lowerStr e.transcript_user) = some m ∧
        t.due_date = some m) := by
  obtain ⟨qe, ts, hq, hc, rfl⟩ := processEntries_ok hok
  intro t ht
  dsimp only at ht
  have hts : t ∈ ts := by
    by_cases ha : queryActive query = true
    · rw [if_pos ha] at ht
      exact (List.perm_insertionSort taskGE ts).mem_iff.mp ht
    · rw [if_neg ha] at ht
      exact ht
  obtain ⟨e, he, hx⟩ := collectTasks_mem hc t hts
  obtain ⟨-, hdue⟩ := extractTask_ok_some hx
  rcases resolveDue_shape hdue with h0 | ⟨d0, h0⟩ | h0 | ⟨m, hm0, h0⟩
  · exact Or.inl h0
  · exact Or.inr (Or.inl ⟨formatDate d0, h0, isYMD_formatDate d0⟩)
  · exact Or.inr (Or.inr (Or.inl ⟨e, he, h0⟩))
  · exact Or.inr (Or.inr (Or.inr ⟨e, he, m, hm0, h0⟩))

/-- C1 counterexample: a record reading `Submit the report by friday` yields a
task whose due date is the raw phrase `by friday`, which is not `YYYY-MM-DD`. -/
theorem c1_counterexample :
    (processEntries stubF now0 [eByFriday] none).map (fun r => r.tasks.map fun t => t.due_date)
      = Except.ok [some "by friday"] ∧ isYMD "by friday" = false :=
  ⟨by decide, by decide⟩

/-- Witness for the amended C1 theorem at a concrete invocation. -/
theorem c1_witness :
    processEntries stubF now0 [eTomorrowOk] none = Except.ok resTomorrowOk ∧
    (taskTomorrowOk.due_date = none ∨
      (∃ s, taskTomorrowOk.due_date = some s ∧ isYMD s = true) ∨
      (∃ e ∈ [eTomorrowOk], taskTomorrowOk.due_date = some (splitSpaceHead e.created_at)) ∨
      (∃ e ∈ [eTomorrowOk], ∃ m, findTimeMatch (lowerStr e.transcript_user) = some m ∧
        taskTomorrowOk.due_date = some m)) :=
  ⟨by rfl, @c1_due_date_shape stubF now0 [eTomorrowOk] none resTomorrowOk (by rfl)
    taskTomorrowOk (by simp [resTomorrowOk])⟩

/-- C2: in every successful invocation, the query embedding is present exactly
when the query guard `query && query.trim()` is truthy, every returned task
comes from a source record and carries a score exactly when the guard is truthy
AND that record carries an embedding (stated as a Boolean equality, so both
directions of the biconditional hold), every qualifying record's task reaches
the output with the same score-presence law, and a falsy guard yields no score
anywhere. -/
theorem c2_score_presence {f : String → Except ProcErr (List ℝ)} {now : Date}
    {entries : List VoiceEntry} {query : Option String} {r : ProcessedResult}
    (hok : processEntries f now entries query = Except.ok r) :
    ∃ qe, queryEmb f query = Except.ok qe ∧ qe.isSome = queryActive query ∧
      (∀ t ∈ r.tasks, ∃ e ∈ entries, extractTask qe now e = Except.ok (some t) ∧
        t.score.isSome = (queryActive query && e.embedding.isSome)) ∧
      (∀ e ∈ entries, ∀ t, extractTask qe now e = Except.ok (some t) →
        t ∈ r.tasks ∧ t.score.isSome = (queryActive query && e.embedding.isSome)) ∧
      (queryActive query = false → ∀ t ∈ r.tasks, t.score = none) := by
  obtain ⟨qe, ts, hq, hc, rfl⟩ := processEntries_ok hok
  have hsome := queryEmb_ok_isSome hq
  have hmem : ∀ t : ExtractedTask,
      t ∈ (if queryActive query = true then List.insertionSort taskGE ts else ts) ↔ t ∈ ts := by
    intro t
    by_cases ha : queryActive query = true
    · rw [if_pos ha]
      exact (List.perm_insertionSort taskGE ts).mem_iff
    · rw [if_neg ha]
  refine ⟨qe, hq, hsome, ?_, ?_, ?_⟩
  · intro t ht
    dsimp only at ht
    obtain ⟨e, he, hx⟩ := collectTasks_mem hc t ((hmem t).mp ht)
    refine ⟨e, he, hx, ?_⟩
    rw [(extractTask_ok_some hx).1, hsome]
  · intro e he t hx
    have hts := collectTasks_complete hc e he t hx
    constructor
    · show t ∈ _
      dsimp only
      exact (hmem t).mpr hts
    · rw [(extractTask_ok_some hx).1, hsome]
  · intro hfalse t ht
    dsimp only at ht
    obtain ⟨e, he, hx⟩ := collectTasks_mem hc t ((hmem t).mp ht)
    have h1 := (extractTask_ok_some hx).1
    rw [hsome, hfalse] at h1
    have h2 : t.score.isSome = false := by simpa using h1
    simpa using h2

/-- Witness for the C2 theorem at a concrete active-query invocation whose
record carries an embedding; the final conjunct exhibits the present score. -/
theorem c2_witness :
    processEntries stubF now0 [eCallMomEmb] (some "x") = Except.ok resCallMomEmb ∧
    (∃ qe, queryEmb stubF (some "x") = Except.ok qe ∧ qe.isSome = queryActive (some "x") ∧
      (∀ t ∈ resCallMomEmb.tasks, ∃ e ∈ [eCallMomEmb],
        extractTask qe now0 e = Except.ok (some t) ∧
        t.score.isSome = (queryActive (some "x") && e.embedding.isSome)) ∧
      (∀ e ∈ [eCallMomEmb], ∀ t, extractTask qe now0 e = Except.ok (some t) →
        t ∈ resCallMomEmb.tasks ∧
        t.score.isSome = (queryActive (some "x") && e.embedding.isSome)) ∧
      (queryActive (some "x") = false → ∀ t ∈ resCallMomEmb.tasks, t.score = none)) ∧
    taskCallMomEmb.score.isSome = true :=
  ⟨by rfl,
    @c2_score_presence stubF now0 [eCallMomEmb] (some "x") resCallMomEmb (by rfl),
    by rfl⟩

/-- C3 (amended): a whitespace-only query behaves like an absent query for the
embedding call, the scores, and the sort, but the summary still receives the
`for query "..."` suffix, because the suffix is keyed on string truthiness
rather than on the trimmed query. -/
theorem c3_blank_query_suffix {entries : List VoiceEntry}
    {f : String → Except ProcErr (List ℝ)} {now : Date} {s : String}
    (hne : s ≠ "") (hbl : trimNonempty s = false) :
    processEntries f now entries (some s) =
      (processEntries f now entries none).map
        (fun r => { r with summary := r.summary ++ " for query \"" ++ s ++ "\"" }) := by
  have hqa : queryActive (some s) = false := by
    simp [queryActive, hbl]
  unfold processEntries
  have hq1 : queryEmb f (some s) = Except.ok none := by
    unfold queryEmb
    dsimp only
    rw [hqa]
    simp
  have hq2 : queryEmb f none = Except.ok none := rfl
  rw [hq1, hq2]
  dsimp only
  cases hc : collectTasks none now entries with
  | error err => rfl
  | ok ts =>
    dsimp only [Except.map]
    rw [hqa]
    simp only [Bool.false_eq_true, if_false, queryActive]
    simp only [Except.ok.injEq, ProcessedResult.mk.injEq]
    refine ⟨mkSummary_some entries.length ts.length hne, ?_, ?_⟩ <;> simp

/-- C3 counterexample: with no records, the whitespace-only query `" "` yields
a different summary than an absent query. -/
theorem c3_counterexample :
    (processEntries stubF now0 [] (some " ")).map (fun r => r.summary)
      ≠ (processEntries stubF now0 [] none).map (fun r => r.summary) := by
  decide

/-- Witness for the amended C3 theorem at a concrete invocation. -/
theorem c3_witness :
    (" " ≠ "") ∧ trimNonempty " " = false ∧
    processEntries stubF now0 [] (some " ") =
      (processEntries stubF now0 [] none).map
        (fun r => { r with summary := r.summary ++ " for query \"" ++ " " ++ "\"" }) :=
  ⟨by decide, by decide,
    @c3_blank_query_suffix [] stubF now0 " " (by decide) (by decide)⟩

/-- C4 (amended): for a qualifying record whose first time-phrase match is
`today`, the due date is the segment of `created_at` before the first space:
the date-only string when the timestamp uses a space separator, but the full
timestamp when it uses the `T` separator. -/
theorem c4_today_created_segment {qe : Option (List ℝ)} {now : Date} {e : VoiceEntry}
    (hne : lowerStr e.transcript_user ≠ "")
    (hverb : testTaskVerbs (lowerStr e.transcript_user) = true)
    (hmatch : findTimeMatch (lowerStr e.transcript_user) = some "today") :
    ∃ t, extractTask qe now e = Except.ok (some t) ∧
      t.due_date = some (splitSpaceHead e.created_at) := by
  have hdue : resolveDue now e (lowerStr e.transcript_user)
      = Except.ok (some (splitSpaceHead e.created_at)) := by
    unfold resolveDue
    rw [hmatch]
    dsimp only
    rw [if_neg (by decide), if_pos (by decide)]
  unfold extractTask
  dsimp only
  rw [if_pos ⟨hne, hverb⟩, hdue]
  exact ⟨_, rfl, rfl⟩

/-- C4 counterexample: the record `Finish the slides today` created at
`2025-06-17T08:00:00Z` receives the full timestamp as its due date, which is
not a date-only `YYYY-MM-DD` string. -/
theorem c4_counterexample :
    (processEntries stubF now0 [eTodayT] none).map (fun r => r.tasks.map fun t => t.due_date)
      = Except.ok [some "2025-06-17T08:00:00Z"] ∧ isYMD "2025-06-17T08:00:00Z" = false :=
  ⟨by decide, by decide⟩

/-- Witness for the amended C4 theorem at a concrete space-separated record. -/
theorem c4_witness :
    lowerStr eTodaySpace.transcript_user ≠ "" ∧
    testTaskVerbs (lowerStr eTodaySpace.transcript_user) = true ∧
    findTimeMatch (lowerStr eTodaySpace.transcript_user) = some "today" ∧
    (∃ t, extractTask none now0 eTodaySpace = Except.ok (some t) ∧
      t.due_date = some (splitSpaceHead eTodaySpace.created_at)) :=
  ⟨by decide, by decide, by decide,
    @c4_today_created_segment none now0 eTodaySpace (by decide) (by decide) (by decide)⟩

/-- C5 (amended): a matched `by X` / `sometime X` / `later X` / `before X`
phrase is kept verbatim as the due date only when it contains none of the
resolvable keywords; phrases like `by tomorrow` are instead resolved to a
calendar date by the keyword-containment checks. -/
theorem c5_unresolved_phrase_kept {qe : Option (List ℝ)} {now : Date} {e : VoiceEntry}
    {m : String} (hne : lowerStr e.transcript_user ≠ "")
    (hverb : testTaskVerbs (lowerStr e.transcript_user) = true)
    (hmatch : findTimeMatch (lowerStr e.transcript_user) = some m)
    (h1 : occursIn "tomorrow" m = false) (h2 : occursIn "today" m = false)
    (h3 : occursIn "yesterday" m = false) (h4 : occursIn "this week" m = false)
    (h5 : occursIn "next week" m = false) :
    ∃ t, extractTask qe now e = Except.ok (some t) ∧ t.due_date = some m := by
  have hdue : resolveDue now e (lowerStr e.transcript_user) = Except.ok (some m) := by
    unfold resolveDue
    rw [hmatch]
    dsimp only
    rw [if_neg (by simp [h1]), if_neg (by simp [h2]), if_neg (by simp [h3]),
      if_neg (by simp [h4, h5])]
  unfold extractTask
  dsimp only
  rw [if_pos ⟨hne, hverb⟩, hdue]
  exact ⟨_, rfl, rfl⟩

/-- C5 counterexample: the record `Submit the report by tomorrow` matches the
phrase `by tomorrow` but its due date is the resolved calendar date
`2025-06-18`, not the raw phrase. -/
theorem c5_counterexample :
    (processEntries stubF now0 [eByTomorrow] none).map (fun r => r.tasks.map fun t => t.due_date)
      = Except.ok [some "2025-06-18"] ∧
    findTimeMatch (lowerStr eByTomorrow.transcript_user) = some "by tomorrow" ∧
    "2025-06-18" ≠ "by tomorrow" :=
  ⟨by decide, by decide, by decide⟩

/-- Witness for the amended C5 theorem at a concrete `by friday` record. -/
theorem c5_witness :
    lowerStr eByFriday.transcript_user ≠ "" ∧
    testTaskVerbs (lowerStr eByFriday.transcript_user) = true ∧
    findTimeMatch (lowerStr eByFriday.transcript_user) = some "by friday" ∧
    occursIn "tomorrow" "by friday" = false ∧ occursIn "today" "by friday" = false ∧
    occursIn "yesterday" "by friday" = false ∧ occursIn "this week" "by friday" = false ∧
    occursIn "next week" "by friday" = false ∧
    (∃ t, extractTask none now0 eByFriday = Except.ok (some t) ∧
      t.due_date = some "by friday") :=
  ⟨by decide, by decide, by decide, by decide, by decide, by decide, by decide, by decide,
    @c5_unresolved_phrase_kept none now0 eByFriday "by friday" (by decide) (by decide)
      (by decide) (by decide) (by decide) (by decide) (by decide) (by decide)⟩

/-- C6 counterexample: `Email Sarah about the project` matches no verb-lexicon
entry, so the invocation extracts no task at all for that record. -/
theorem c6_counterexample :
    (processEntries stubF now0 [eSarah] none).map (fun r => r.tasks.isEmpty)
      = Except.ok true := by
  decide

/-- C6 (amended): `Email Sarah about the project` yields no task because
`email` is not in the verb lexicon; adding a lexicon verb, as in
`Need to email Sarah about the project`, yields exactly one task with category
`Work` and no due date. -/
theorem c6_email_not_in_lexicon :
    (processEntries stubF now0 [eSarah] none).map (fun r => r.tasks.map fun t => t.task_text)
      = Except.ok [] ∧
    (processEntries stubF now0 [eNeedSarah] none).map
        (fun r => r.tasks.map fun t => (t.category, t.due_date))
      = Except.ok [("Work", none)] :=
  ⟨by decide, by decide⟩

/-- C7: with an active query, the returned task list is sorted by
non-increasing effective score (absent scores count as 0), it is a permutation
of the extraction-order list, and any two tasks with equal effective scores
keep their extraction-order relative position. -/
theorem c7_sorted_and_stable {entries : List VoiceEntry} {s : String}
    {f : String → Except ProcErr (List ℝ)} {now : Date} {r : ProcessedResult}
    (hok : processEntries f now entries (some s) = Except.ok r)
    (hact : queryActive (some s) = true) :
    List.Sorted taskGE r.tasks ∧
    ∃ v ts, f s = Except.ok v ∧ collectTasks (some v) now entries = Except.ok ts ∧
      ts.Perm r.tasks ∧
      ∀ a b, List.Sublist [a, b] ts → effScore a = effScore b →
        List.Sublist [a, b] r.tasks := by
  obtain ⟨qe, ts, hq, hc, rfl⟩ := processEntries_ok hok
  have hqe : ∃ v, f s = Except.ok v ∧ qe = some v := by
    unfold queryEmb at hq
    dsimp only at hq
    rw [if_pos hact] at hq
    cases hf : f s with
    | ok v => rw [hf] at hq; cases hq; exact ⟨v, rfl, rfl⟩
    | error err => rw [hf] at hq; cases hq
  obtain ⟨v, hf, rfl⟩ := hqe
  dsimp only
  rw [if_pos hact]
  refine ⟨List.sorted_insertionSort taskGE ts, v, ts, hf, hc,
    (List.perm_insertionSort taskGE ts).symm, ?_⟩
  intro a b hsub heq
  exact List.pair_sublist_insertionSort (le_of_eq heq.symm) hsub

/-- Witness for the C7 theorem at a concrete one-task invocation. -/
theorem c7_witness :
    processEntries stubF now0 [eCallMom] (some "x") = Except.ok resCallMomQuery ∧
    queryActive (some "x") = true ∧
    (List.Sorted taskGE resCallMomQuery.tasks ∧
      ∃ v ts, stubF "x" = Except.ok v ∧ collectTasks (some v) now0 [eCallMom] = Except.ok ts ∧
        ts.Perm resCallMomQuery.tasks ∧
        ∀ a b, List.Sublist [a, b] ts → effScore a = effScore b →
          List.Sublist [a, b] resCallMomQuery.tasks) :=
  ⟨by rfl, by rfl,
    @c7_sorted_and_stable [eCallMom] "x" stubF now0 resCallMomQuery (by rfl) (by rfl)⟩

/-- C8 (amended): two invocations differing only in the ambient clock agree
whenever every record's `created_at` is non-empty (the model is a pure function
of its explicit arguments, so input records are never mutated); with an empty
`created_at` the clock leaks into resolved due dates, see the counterexample. -/
theorem c8_clock_independent {entries : List VoiceEntry} {query : Option String}
    {f : String → Except ProcErr (List ℝ)} {now now2 : Date}
    (h : ∀ e ∈ entries, e.created_at ≠ "") :
    processEntries f now entries query = processEntries f now2 entries query := by
  unfold processEntries
  cases hq : queryEmb f query with
  | error err => rfl
  | ok qe =>
    dsimp only
    rw [@collectTasks_now_indep qe now now2 entries h]

/-- C8 counterexample: a record with empty `created_at` and a `tomorrow`
phrase gets its due date from the clock, so invocations on identical inputs at
different times disagree. -/
theorem c8_counterexample :
    (processEntries stubF now0 [eEmptyCreated] none).map
        (fun r => r.tasks.map fun t => t.due_date)
      ≠ (processEntries stubF now1 [eEmptyCreated] none).map
          (fun r => r.tasks.map fun t => t.due_date) := by
  decide

/-- Witness for the amended C8 theorem at a concrete invocation. -/
theorem c8_witness :
    (∀ e ∈ [eTomorrowOk], e.created_at ≠ "") ∧
    processEntries stubF now0 [eTomorrowOk] none
      = processEntries stubF now1 [eTomorrowOk] none :=
  ⟨by decide, @c8_clock_independent [eTomorrowOk] none stubF now0 now1 (by decide)⟩

/-- C9: when the query guard is truthy and the embedding provider call fails,
the whole invocation fails with that error and returns no partial result. -/
theorem c9_embed_error_propagates {entries : List VoiceEntry} {s : String}
    {f : String → Except ProcErr (List ℝ)} {now : Date} {err : ProcErr}
    (hact : queryActive (some s) = true) (hf : f s = Except.error err) :
    processEntries f now entries (some s) = Except.error err := by
  unfold processEntries queryEmb
  dsimp only
  rw [if_pos hact, hf]

/-- Witness for the C9 theorem at a concrete failing provider. -/
theorem c9_witness :
    queryActive (some "health") = true ∧ failF "health" = Except.error ProcErr.providerDown ∧
    processEntries failF now0 [] (some "health") = Except.error ProcErr.providerDown :=
  ⟨by decide, by rfl,
    @c9_embed_error_propagates [] "health" failF now0 ProcErr.providerDown (by decide) (by rfl)⟩

/-- C10: the verb lexicon contains the bare time words, so a record whose
transcript is just `Tomorrow` still yields a task. -/
theorem c10_bare_time_word_task :
    "tomorrow" ∈ taskVerbList ∧
    (processEntries stubF now0 [eBareTomorrow] none).map
        (fun r => r.tasks.map fun t => (t.task_text, t.due_date, t.category))
      = Except.ok [("Tomorrow", some "2025-06-18", "Other")] :=
  ⟨by decide, by decide⟩
